import Mathlib

/-!
Shallow embedding of the `huge_allocator` crate (src/mmap.rs, src/mmapper.rs,
src/lib.rs): a page-granular allocator that opportunistically backs large
allocations with 2MB huge pages, keeps a table from base address to mapped
segment, and accumulates statistics.

Modelling conventions:
* `usize` is modelled as `Nat`.  Allocation sizes are bounded by
  `isize::MAX` in Rust's `Layout`, so the arithmetic in the translated code
  paths does not overflow for representable requests.
* The OS (`mmap`/`mremap` syscalls) is an oracle passed explicitly: a call
  either fails (`none`) or yields the base address of the fresh mapping
  (`some addr`).  Fresh mappings are assumed zero-filled by the OS; this is
  not needed by any theorem below.
* `Mutex` locking: lock acquisition only fails after a panic poisoned the
  lock, which cannot happen in the modelled code paths, so locks always
  succeed and the state is threaded sequentially.
* `HashMap<usize, MMap>` is modelled as an association list with the exact
  observable semantics of the source's uses: `remove` returns the stored
  value and deletes the key, `insert` stores the value and returns the
  previously stored one if the key was present (the new value replaces it).
* `Result<T, AllocError>` is modelled as `Option T` (`none` = `AllocError`),
  since `AllocError` carries no data.
* The `f64` reporting field `missed_mb` of `HugeAllocatorStats` is not
  modelled (floating point); the underlying integer counters
  `missed_bytes`/`missed_mb` of `MMapperStats` are.
-/

namespace HugeAlloc

/-- `std::alloc::Layout`: requested byte size and alignment.  Alignment is
carried but never inspected by the translated code (page mappings satisfy any
reasonable alignment). -/
structure Layout where
  size : Nat
  align : Nat
deriving DecidableEq, Repr

/-- `PageSize` from src/mmap.rs: the platform default page size or a fixed
2MB huge page. -/
inductive PageSize where
  | SizeDefault
  | Size2m
deriving DecidableEq, Repr

/-- Bytes in a 2MB huge page. -/
def hugePageBytes : Nat := 2 * 1024 * 1024

/-- `PageSize::bytes` from src/mmap.rs.  `dps` is the cached
`DEFAULT_PAGE_SIZE` obtained once from `sysconf(PAGE_SIZE)`; it is a positive
platform constant (4096 on mainstream Linux) passed explicitly to keep the
model pure. -/
def PageSize.bytes (dps : Nat) : PageSize → Nat
  | .SizeDefault => dps
  | .Size2m => hugePageBytes

/-- `MMap` from src/mmap.rs: descriptor of one anonymous mapped segment. -/
structure MMap where
  ptr : Nat
  layout : Layout
  alloc_size : Nat
  page_size : PageSize
deriving DecidableEq, Repr

namespace MMap

/-- `MMap::calc_alloc_size`: the requested size rounded up to whole pages of
the given class; a zero-byte request yields a zero mapped size. -/
def calc_alloc_size (dps : Nat) (size : Nat) (page_size : PageSize) : Nat :=
  if size > 0 then
    ((size - 1) / page_size.bytes dps + 1) * page_size.bytes dps
  else
    0

/-- `MMap::new` / `MMap::map`: request an anonymous read-write mapping of
`calc_alloc_size` bytes with the flags of `page_size`.  `resp` is the OS
oracle's answer for this one `mmap` call: `none` when the OS cannot satisfy
the request, `some addr` when it maps at `addr`. -/
def new (dps : Nat) (layout : Layout) (page_size : PageSize) (resp : Option Nat) :
    Option MMap :=
  match resp with
  | some addr =>
      some { ptr := addr
             layout := layout
             alloc_size := calc_alloc_size dps layout.size page_size
             page_size := page_size }
  | none => none

/-- Result of `MMap::remap`: the returned `bool`, the (possibly mutated)
descriptor, and whether the `mremap` syscall was issued (ghost flag used to
state that the equal-size path performs no remap operation). -/
structure RemapOut where
  ok : Bool
  mmap : MMap
  mremapCalled : Bool
deriving Repr

/-- `MMap::remap` from src/mmap.rs: if the new page-rounded size differs from
the current mapped size, try `mremap` (oracle `resp`: `some p` = success
relocating to `p`, `none` = failure); on success update `ptr` and
`alloc_size`.  If the rounded sizes are equal, succeed with no syscall.  On
any success the stored layout is replaced; on failure nothing changes. -/
def remap (dps : Nat) (m : MMap) (new_layout : Layout) (resp : Option Nat) :
    RemapOut :=
  let new_size := new_layout.size
  let new_alloc_size := calc_alloc_size dps new_size m.page_size
  if m.alloc_size ≠ new_alloc_size then
    match resp with
    | some p =>
        { ok := true
          mmap := { m with ptr := p, alloc_size := new_alloc_size, layout := new_layout }
          mremapCalled := true }
    | none =>
        { ok := false, mmap := m, mremapCalled := true }
  else
    { ok := true, mmap := { m with layout := new_layout }, mremapCalled := false }

end MMap

/-- Association-list model of the `HashMap<usize, MMap>` pointer table:
lookup of the first (unique) entry with the given key. -/
def tableGet : List (Nat × MMap) → Nat → Option MMap
  | [], _ => none
  | pr :: t, k => if pr.1 = k then some pr.2 else tableGet t k

/-- Delete every entry with the given key (keys are unique by construction,
mirroring `HashMap`). -/
def tableErase : List (Nat × MMap) → Nat → List (Nat × MMap)
  | [], _ => []
  | pr :: t, k => if pr.1 = k then tableErase t k else pr :: tableErase t k

/-- `HashMap::remove`: the stored value (if any) and the table without the
key. -/
def tableRemove (t : List (Nat × MMap)) (k : Nat) :
    Option MMap × List (Nat × MMap) :=
  (tableGet t k, tableErase t k)

/-- `HashMap::insert`: the previously stored value (if any) and the table
with `v` stored under `k` (replacing any previous entry). -/
def tableInsert (t : List (Nat × MMap)) (k : Nat) (v : MMap) :
    Option MMap × List (Nat × MMap) :=
  (tableGet t k, (k, v) :: tableErase t k)

/-- `MMapperStats` from src/mmapper.rs: the monotone counters behind the
stats mutex. -/
structure MMapperStats where
  missed_allocs : Nat := 0
  missed_bytes : Nat := 0
  missed_mb : Nat := 0
  remaps_failed : Nat := 0
deriving DecidableEq, Repr

/-- `MMapper` from src/mmapper.rs: threshold percentage, pointer table and
stats counters (the two mutexes are modelled as the plain protected data). -/
structure MMapper where
  threshold_pct : Nat
  ptr_map : List (Nat × MMap) := []
  stats : MMapperStats := {}
deriving DecidableEq, Repr

namespace MMapper

/-- `MMapper::new`. -/
def new (threshold_pct : Nat) : MMapper :=
  { threshold_pct := threshold_pct }

/-- `MMapper::target_page_size`: huge pages when
`size * 100 / (2*1024*1024) >= threshold_pct`, else the default class. -/
def target_page_size (self : MMapper) (size : Nat) : PageSize :=
  if (size * 100) / (2 * 1024 * 1024) ≥ self.threshold_pct then
    .Size2m
  else
    .SizeDefault

/-- `MMapper::add_missed`: count one missed huge allocation of `bytes`
bytes, carrying whole megabytes from `missed_bytes` into `missed_mb`. -/
def add_missed (s : MMapperStats) (bytes : Nat) : MMapperStats :=
  let s := { s with
    missed_allocs := s.missed_allocs + 1
    missed_bytes := s.missed_bytes + bytes }
  if s.missed_bytes > 1024 * 1024 then
    let mb := s.missed_bytes / (1024 * 1024)
    { s with
      missed_bytes := s.missed_bytes - mb * (1024 * 1024)
      missed_mb := s.missed_mb + mb }
  else
    s

/-- Result of `MMapper::alloc`: the fat pointer (base address, usable
length) on success, `none` on `AllocError`, plus the updated tracker
state. -/
structure AllocOut where
  res : Option (Nat × Nat)
  st : MMapper
deriving DecidableEq, Repr

/-- Tail of `MMapper::alloc` after a mapping was obtained: record a missed
allocation when the segment ended up on default pages, then insert into the
table (`map_add`); a key collision is an `AllocError` (note the colliding
insert has still replaced the table entry, as `HashMap::insert` does). -/
def allocFinish (self : MMapper) (size : Nat) (mmap : MMap) : AllocOut :=
  let self :=
    if mmap.page_size = PageSize.SizeDefault then
      { self with stats := add_missed self.stats size }
    else
      self
  let ptr := (mmap.ptr, mmap.alloc_size)
  let ins := tableInsert self.ptr_map mmap.ptr mmap
  let self := { self with ptr_map := ins.2 }
  match ins.1 with
  | some _ => { res := none, st := self }
  | none => { res := some ptr, st := self }

/-- `MMapper::alloc`: compute the target page class, try to map with it, on
failure retry once with the default class when the target was huge; then
finish via `allocFinish`.  `env cls` is the OS oracle's answer for the
`mmap` call with class `cls` in this operation. -/
def alloc (self : MMapper) (dps : Nat) (layout : Layout)
    (env : PageSize → Option Nat) : AllocOut :=
  let size := layout.size
  let page_size := self.target_page_size size
  match MMap.new dps layout page_size (env page_size) with
  | some mmap => allocFinish self size mmap
  | none =>
      if page_size = PageSize.SizeDefault then
        { res := none, st := self }
      else
        match MMap.new dps layout PageSize.SizeDefault (env PageSize.SizeDefault) with
        | some mmap => allocFinish self size mmap
        | none => { res := none, st := self }

/-- `MMapper::dealloc`: remove the table entry for `ptr` and drop it (the
drop unmaps).  The source discards the `Option` returned by `map_remove`
with `self.map_remove(ptr)? ;  Ok(())`, so a missing entry is NOT an error:
the call always returns `Ok(())` (locks cannot fail in the model). -/
def dealloc (self : MMapper) (ptr : Nat) : Option Unit × MMapper :=
  let rem := tableRemove self.ptr_map ptr
  (some (), { self with ptr_map := rem.2 })

end MMapper

/-- Byte-addressed memory, used to state copy correctness of the realloc
copy path.  Only `copy_nonoverlapping` in `MMapper::realloc` is a memory
write performed by the allocator itself. -/
def Mem : Type := Nat → Nat

/-- Semantics of `ptr::copy_nonoverlapping(src, dst, n)` under its
non-overlap precondition: the `n` bytes starting at `dst` now hold the bytes
that were at `src`; all other addresses are untouched. -/
def memCopy (mem : Mem) (dst src n : Nat) : Mem :=
  fun a => if dst ≤ a ∧ a < dst + n then mem (src + (a - dst)) else mem a

namespace MMapper

/-- Result of `MMapper::realloc`: the fat pointer on success plus updated
tracker state and memory.  `hugeToDefaultCharge` is a ghost flag set exactly
when the source's `else if mmap.page_size() == PageSize::SizeDefault` branch
(charging `new_size` as missed bytes after a was-huge segment remapped to
default) fires; `copyPath` is a ghost flag set exactly when control falls
through to the allocate-copy-destroy path. -/
structure ReallocOut where
  res : Option (Nat × Nat)
  st : MMapper
  mem : Mem
  hugeToDefaultCharge : Bool
  copyPath : Bool

/-- The allocate-copy-destroy tail of `MMapper::realloc`: allocate a fresh
segment via the full `alloc` path (`?` propagates its failure), copy
`min(old_size, new_size)` bytes from the old segment's base to the new one,
and drop the old segment (already removed from the table; the drop
unmaps). -/
def reallocCopy (self : MMapper) (dps : Nat) (mmap : MMap)
    (old_size new_size : Nat) (new_layout : Layout)
    (envAlloc : PageSize → Option Nat) (mem : Mem) : ReallocOut :=
  let a := self.alloc dps new_layout envAlloc
  match a.res with
  | none =>
      { res := none, st := a.st, mem := mem
        hugeToDefaultCharge := false, copyPath := true }
  | some fat =>
      { res := some fat, st := a.st
        mem := memCopy mem fat.1 mmap.ptr (min old_size new_size)
        hugeToDefaultCharge := false, copyPath := true }

/-- The body of `MMapper::realloc` after the entry was found and removed
from the table (`self` here is the tracker with the entry already removed):
when the current page class equals the target class for the new size, try
`MMap::remap` (oracle `envRemap`); on remap success do the missed-bytes
accounting of lines 98–107 of src/mmapper.rs and re-insert (`map_add`, whose
collision is an `AllocError`); on remap failure bump `remaps_failed` and
fall to the copy path; when the class differs fall straight to the copy
path. -/
def reallocTracked (self : MMapper) (dps : Nat) (mmap : MMap)
    (old_size new_size : Nat) (new_layout : Layout) (envRemap : Option Nat)
    (envAlloc : PageSize → Option Nat) (mem : Mem) : ReallocOut :=
  let was_default := mmap.page_size = PageSize.SizeDefault
  if mmap.page_size = self.target_page_size new_size then
    let r := MMap.remap dps mmap new_layout envRemap
    if r.ok then
      let mmap := r.mmap
      let fat := (mmap.ptr, mmap.alloc_size)
      let acct : MMapperStats × Bool :=
        if was_default then
          if new_size > old_size then
            (add_missed self.stats (new_size - old_size), false)
          else
            (self.stats, false)
        else if mmap.page_size = PageSize.SizeDefault then
          (add_missed self.stats new_size, true)
        else
          (self.stats, false)
      let self := { self with stats := acct.1 }
      let ins := tableInsert self.ptr_map mmap.ptr mmap
      let self := { self with ptr_map := ins.2 }
      match ins.1 with
      | some _ =>
          { res := none, st := self, mem := mem
            hugeToDefaultCharge := acct.2, copyPath := false }
      | none =>
          { res := some fat, st := self, mem := mem
            hugeToDefaultCharge := acct.2, copyPath := false }
    else
      let self := { self with stats :=
        { self.stats with remaps_failed := self.stats.remaps_failed + 1 } }
      reallocCopy self dps mmap old_size new_size new_layout envAlloc mem
  else
    reallocCopy self dps mmap old_size new_size new_layout envAlloc mem

/-- `MMapper::realloc`: remove the entry for `ptr` (missing ⇒ `AllocError`),
then continue with `reallocTracked` on the removed segment. -/
def realloc (self : MMapper) (dps : Nat) (ptr : Nat)
    (old_layout new_layout : Layout) (envRemap : Option Nat)
    (envAlloc : PageSize → Option Nat) (mem : Mem) : ReallocOut :=
  let old_size := old_layout.size
  let new_size := new_layout.size
  let rem := tableRemove self.ptr_map ptr
  let self := { self with ptr_map := rem.2 }
  match rem.1 with
  | none =>
      { res := none, st := self, mem := mem
        hugeToDefaultCharge := false, copyPath := false }
  | some mmap =>
      reallocTracked self dps mmap old_size new_size new_layout envRemap envAlloc mem

end MMapper

/-- `HugeAllocatorStats` from src/lib.rs, minus the `f64` field `missed_mb`
(floating-point reporting only; no integer state feeds back from it). -/
structure HugeAllocatorStats where
  alloc : Nat := 0
  mapped : Nat := 0
  segments : Nat := 0
  default_alloc : Nat := 0
  default_mapped : Nat := 0
  default_segments : Nat := 0
  huge_alloc : Nat := 0
  huge_mapped : Nat := 0
  huge_segments : Nat := 0
  missed_allocs : Nat := 0
  remaps_failed : Nat := 0
  efficiency : Nat := 0
deriving DecidableEq, Repr

namespace MMapper

/-- Body of the `for mmap in ptr_map.values()` loop of `MMapper::stats`. -/
def statsScanStep (out : HugeAllocatorStats) (pr : Nat × MMap) :
    HugeAllocatorStats :=
  let mmap := pr.2
  let out := { out with
    alloc := out.alloc + mmap.layout.size
    mapped := out.mapped + mmap.alloc_size
    segments := out.segments + 1 }
  if mmap.page_size = PageSize.SizeDefault then
    { out with
      default_alloc := out.default_alloc + mmap.layout.size
      default_mapped := out.default_mapped + mmap.alloc_size
      default_segments := out.default_segments + 1 }
  else
    { out with
      huge_alloc := out.huge_alloc + mmap.layout.size
      huge_mapped := out.huge_mapped + mmap.alloc_size
      huge_segments := out.huge_segments + 1 }

/-- `MMapper::stats`: scan the table, merge the accumulator counters, then
compute `efficiency` — 100 when nothing is mapped (no division is reachable
in that branch), else `alloc * 100 / mapped` in truncating integer
division. -/
def statsSnapshot (self : MMapper) : HugeAllocatorStats :=
  let out : HugeAllocatorStats := {}
  let out := self.ptr_map.foldl statsScanStep out
  let out := { out with
    missed_allocs := self.stats.missed_allocs
    remaps_failed := self.stats.remaps_failed }
  if out.mapped = 0 then
    { out with efficiency := 100 }
  else
    { out with efficiency := (out.alloc * 100) / out.mapped }

/-- Tracker states reachable from `MMapper::new` by any sequence of
`alloc`/`dealloc`/`realloc` calls under a real OS.  The side conditions on
the oracles encode one fact about Linux: `mmap` and `mremap` reject a
zero-length request with `EINVAL`, so a request whose page-rounded size is
0 (exactly the `layout.size = 0` case) never yields a mapping. -/
inductive Reach (dps : Nat) : MMapper → Prop where
  | init (tp : Nat) : Reach dps (MMapper.new tp)
  | alloc_step (st : MMapper) (l : Layout) (env : PageSize → Option Nat)
      (hst : Reach dps st) (hz : l.size = 0 → ∀ ps, env ps = none) :
      Reach dps (st.alloc dps l env).st
  | dealloc_step (st : MMapper) (p : Nat) (hst : Reach dps st) :
      Reach dps (st.dealloc p).2
  | realloc_step (st : MMapper) (p : Nat) (ol nl : Layout) (envR : Option Nat)
      (envA : PageSize → Option Nat) (mem : Mem) (hst : Reach dps st)
      (hzR : nl.size = 0 → envR = none)
      (hzA : nl.size = 0 → ∀ ps, envA ps = none) :
      Reach dps (st.realloc dps p ol nl envR envA mem).st

end MMapper

/-! ## Arithmetic facts about `calc_alloc_size` -/

theorem PageSize.bytes_pos {dps : Nat} (hdps : 0 < dps) (ps : PageSize) :
    0 < ps.bytes dps := by
  cases ps with
  | SizeDefault => exact hdps
  | Size2m => show 0 < hugePageBytes; norm_num [hugePageBytes]

theorem MMap.calc_alloc_size_zero (dps : Nat) (ps : PageSize) :
    MMap.calc_alloc_size dps 0 ps = 0 := by
  simp [MMap.calc_alloc_size]

theorem MMap.calc_alloc_size_ge (dps size : Nat) (ps : PageSize)
    (hb : 0 < ps.bytes dps) : size ≤ MMap.calc_alloc_size dps size ps := by
  unfold MMap.calc_alloc_size
  split
  · have hdm := Nat.div_add_mod (size - 1) (ps.bytes dps)
    have hml := Nat.mod_lt (size - 1) hb
    have hexp : ((size - 1) / ps.bytes dps + 1) * ps.bytes dps
        = ps.bytes dps * ((size - 1) / ps.bytes dps) + ps.bytes dps := by ring
    rw [hexp]
    generalize ps.bytes dps * ((size - 1) / ps.bytes dps) = t at hdm ⊢
    omega
  · omega

theorem MMap.calc_alloc_size_mod (dps size : Nat) (ps : PageSize) :
    MMap.calc_alloc_size dps size ps % ps.bytes dps = 0 := by
  unfold MMap.calc_alloc_size
  split
  · exact Nat.mul_mod_left _ _
  · simp

theorem MMap.calc_alloc_size_pos (dps size : Nat) (ps : PageSize)
    (hb : 0 < ps.bytes dps) (hs : 0 < size) :
    0 < MMap.calc_alloc_size dps size ps := by
  unfold MMap.calc_alloc_size
  rw [if_pos hs]
  exact Nat.mul_pos (Nat.succ_pos _) hb

theorem MMap.calc_alloc_size_lt (dps size : Nat) (ps : PageSize)
    (hs : 0 < size) :
    MMap.calc_alloc_size dps size ps < size + ps.bytes dps := by
  unfold MMap.calc_alloc_size
  rw [if_pos hs]
  have hdm : (size - 1) / ps.bytes dps * ps.bytes dps ≤ size - 1 :=
    Nat.div_mul_le_self _ _
  have hexp : ((size - 1) / ps.bytes dps + 1) * ps.bytes dps
      = (size - 1) / ps.bytes dps * ps.bytes dps + ps.bytes dps := by ring
  rw [hexp]
  generalize (size - 1) / ps.bytes dps * ps.bytes dps = t at hdm ⊢
  omega

theorem MMap.calc_alloc_size_eq_zero (dps size : Nat) (ps : PageSize)
    (hb : 0 < ps.bytes dps) :
    MMap.calc_alloc_size dps size ps = 0 ↔ size = 0 := by
  constructor
  · intro h
    by_contra hs
    have := MMap.calc_alloc_size_pos dps size ps hb (Nat.pos_of_ne_zero hs)
    omega
  · intro h
    subst h
    exact MMap.calc_alloc_size_zero dps ps

/-! ## Table lemmas -/

theorem mem_tableErase {t : List (Nat × MMap)} {k : Nat} {pr : Nat × MMap}
    (h : pr ∈ tableErase t k) : pr ∈ t := by
  induction t with
  | nil => simp [tableErase] at h
  | cons hd tl ih =>
    rw [tableErase] at h
    split at h
    · exact List.mem_cons_of_mem _ (ih h)
    · rcases List.mem_cons.mp h with h | h
      · exact h ▸ List.mem_cons_self _ _
      · exact List.mem_cons_of_mem _ (ih h)

theorem tableGet_erase_self (t : List (Nat × MMap)) (k : Nat) :
    tableGet (tableErase t k) k = none := by
  induction t with
  | nil => simp [tableErase, tableGet]
  | cons hd tl ih =>
    rw [tableErase]
    split
    · exact ih
    · rw [tableGet, if_neg (by assumption)]
      exact ih

theorem tableGet_erase_ne (t : List (Nat × MMap)) {q k : Nat} (h : q ≠ k) :
    tableGet (tableErase t k) q = tableGet t q := by
  induction t with
  | nil => simp [tableErase]
  | cons hd tl ih =>
    rw [tableErase, tableGet]
    split
    · rw [if_neg (by rename_i hk; rw [hk]; exact fun he => h he.symm), ih]
    · rw [tableGet]
      split
      · rfl
      · exact ih

theorem tableGet_mem {t : List (Nat × MMap)} {k : Nat} {m : MMap}
    (h : tableGet t k = some m) : (k, m) ∈ t := by
  induction t with
  | nil => simp [tableGet] at h
  | cons hd tl ih =>
    rw [tableGet] at h
    split at h
    · rename_i hk
      cases h
      exact (by rw [← hk]; exact List.mem_cons_self _ _)
    · exact List.mem_cons_of_mem _ (ih h)

/-! ## Structural lemmas about `alloc`, `remap` and `realloc` -/

namespace MMapper

theorem allocFinish_ptr_map (st : MMapper) (size : Nat) (m : MMap) :
    (allocFinish st size m).st.ptr_map = (m.ptr, m) :: tableErase st.ptr_map m.ptr := by
  unfold allocFinish
  split <;> (rename_i h; simp [tableInsert]) <;> split <;> rfl

theorem allocFinish_res (st : MMapper) (size : Nat) (m : MMap) :
    (allocFinish st size m).res =
      match tableGet st.ptr_map m.ptr with
      | some _ => none
      | none => some (m.ptr, m.alloc_size) := by
  unfold allocFinish
  split <;> (simp only [tableInsert]) <;> (cases tableGet st.ptr_map m.ptr <;> rfl)

theorem alloc_eq (st : MMapper) (dps : Nat) (l : Layout) (env : PageSize → Option Nat) :
    st.alloc dps l env =
      match env (st.target_page_size l.size) with
      | some a =>
          allocFinish st l.size
            ⟨a, l, MMap.calc_alloc_size dps l.size (st.target_page_size l.size),
              st.target_page_size l.size⟩
      | none =>
          if st.target_page_size l.size = PageSize.SizeDefault then
            { res := none, st := st }
          else
            match env PageSize.SizeDefault with
            | some a =>
                allocFinish st l.size
                  ⟨a, l, MMap.calc_alloc_size dps l.size PageSize.SizeDefault,
                    PageSize.SizeDefault⟩
            | none => { res := none, st := st } := by
  unfold alloc MMap.new
  cases h1 : env (st.target_page_size l.size) <;>
    cases h2 : env PageSize.SizeDefault <;>
    simp only [h1, h2]

theorem alloc_of_env_none (st : MMapper) (dps : Nat) (l : Layout)
    (env : PageSize → Option Nat) (h : ∀ ps, env ps = none) :
    st.alloc dps l env = { res := none, st := st } := by
  rw [alloc_eq, h, h]
  split
  · rename_i heq; exact Option.noConfusion heq
  · split <;> rfl

theorem alloc_success {st : MMapper} {dps : Nat} {l : Layout}
    {env : PageSize → Option Nat} {p len : Nat}
    (h : (st.alloc dps l env).res = some (p, len)) :
    ∃ cls a, env cls = some a ∧ p = a ∧
      len = MMap.calc_alloc_size dps l.size cls ∧
      (st.alloc dps l env).st.ptr_map =
        (p, (⟨p, l, len, cls⟩ : MMap)) :: tableErase st.ptr_map p ∧
      (cls = st.target_page_size l.size ∨
        (st.target_page_size l.size = PageSize.Size2m ∧
          env PageSize.Size2m = none ∧ cls = PageSize.SizeDefault)) := by
  rw [alloc_eq] at h ⊢
  cases henv : env (st.target_page_size l.size) with
  | some a =>
      simp only [henv] at h
      dsimp only
      rw [allocFinish_res] at h
      cases hg : tableGet st.ptr_map a with
      | some _ => rw [hg] at h; cases h
      | none =>
          rw [hg] at h
          cases h
          exact ⟨st.target_page_size l.size, a, henv, rfl, rfl,
            by rw [allocFinish_ptr_map], Or.inl rfl⟩
  | none =>
      simp only [henv] at h
      dsimp only
      by_cases htc : st.target_page_size l.size = PageSize.SizeDefault
      · rw [if_pos htc] at h
        exact Option.noConfusion h
      · rw [if_neg htc] at h ⊢
        cases henv2 : env PageSize.SizeDefault with
        | some a =>
            simp only [henv2] at h
            dsimp only
            rw [allocFinish_res] at h
            cases hg : tableGet st.ptr_map a with
            | some _ => rw [hg] at h; cases h
            | none =>
                rw [hg] at h
                cases h
                have htc2 : st.target_page_size l.size = PageSize.Size2m := by
                  cases hx : st.target_page_size l.size
                  · exact absurd hx htc
                  · rfl
                exact ⟨PageSize.SizeDefault, a, henv2, rfl, rfl,
                  by rw [allocFinish_ptr_map],
                  Or.inr ⟨htc2, htc2 ▸ henv, rfl⟩⟩
        | none =>
            simp only [henv2] at h
            exact Option.noConfusion h

theorem alloc_mem {st : MMapper} {dps : Nat} {l : Layout}
    {env : PageSize → Option Nat} {pr : Nat × MMap}
    (h : pr ∈ (st.alloc dps l env).st.ptr_map) :
    pr ∈ st.ptr_map ∨
      ∃ cls a, env cls = some a ∧
        pr = (a, (⟨a, l, MMap.calc_alloc_size dps l.size cls, cls⟩ : MMap)) := by
  rw [alloc_eq] at h
  cases henv : env (st.target_page_size l.size) with
  | some a =>
      simp only [henv] at h
      rw [allocFinish_ptr_map] at h
      rcases List.mem_cons.mp h with h | h
      · exact Or.inr ⟨st.target_page_size l.size, a, henv, h⟩
      · exact Or.inl (mem_tableErase h)
  | none =>
      simp only [henv] at h
      split at h
      · exact Or.inl h
      · cases henv2 : env PageSize.SizeDefault with
        | some a =>
            simp only [henv2] at h
            rw [allocFinish_ptr_map] at h
            rcases List.mem_cons.mp h with h | h
            · exact Or.inr ⟨PageSize.SizeDefault, a, henv2, h⟩
            · exact Or.inl (mem_tableErase h)
        | none => simp only [henv2] at h; exact Or.inl h

theorem remap_page_size (dps : Nat) (m : MMap) (nl : Layout) (resp : Option Nat) :
    (m.remap dps nl resp).mmap.page_size = m.page_size := by
  cases resp <;> simp only [MMap.remap] <;> split <;> rfl

theorem reallocCopy_charge (self : MMapper) (dps : Nat) (m : MMap)
    (os ns : Nat) (nl : Layout) (envA : PageSize → Option Nat) (mem : Mem) :
    (reallocCopy self dps m os ns nl envA mem).hugeToDefaultCharge = false := by
  unfold reallocCopy
  cases h : (self.alloc dps nl envA).res <;> simp [h]

theorem reallocCopy_copyPath (self : MMapper) (dps : Nat) (m : MMap)
    (os ns : Nat) (nl : Layout) (envA : PageSize → Option Nat) (mem : Mem) :
    (reallocCopy self dps m os ns nl envA mem).copyPath = true := by
  unfold reallocCopy
  cases h : (self.alloc dps nl envA).res <;> simp [h]

theorem remap_ok_shape {dps : Nat} {m : MMap} {nl : Layout} {resp : Option Nat}
    (h : (m.remap dps nl resp).ok = true) :
    (m.remap dps nl resp).mmap.layout = nl ∧
    (m.remap dps nl resp).mmap.alloc_size =
      MMap.calc_alloc_size dps nl.size m.page_size ∧
    (m.remap dps nl resp).mmap.page_size = m.page_size := by
  unfold MMap.remap at h ⊢
  dsimp only at h ⊢
  by_cases hne : m.alloc_size ≠ MMap.calc_alloc_size dps nl.size m.page_size
  · rw [if_pos hne] at h ⊢
    cases resp with
    | some p => exact ⟨rfl, rfl, rfl⟩
    | none => simp at h
  · rw [if_neg hne] at h ⊢
    refine ⟨rfl, ?_, rfl⟩
    dsimp only
    omega

theorem realloc_eq (st : MMapper) (dps ptr : Nat) (ol nl : Layout)
    (envR : Option Nat) (envA : PageSize → Option Nat) (mem : Mem) :
    st.realloc dps ptr ol nl envR envA mem =
      match tableGet st.ptr_map ptr with
      | none =>
          { res := none, st := { st with ptr_map := tableErase st.ptr_map ptr }
            mem := mem, hugeToDefaultCharge := false, copyPath := false }
      | some mmap =>
          reallocTracked { st with ptr_map := tableErase st.ptr_map ptr } dps
            mmap ol.size nl.size nl envR envA mem := by
  unfold realloc tableRemove
  cases h : tableGet st.ptr_map ptr <;> simp [h]

theorem reallocCopy_st (self : MMapper) (dps : Nat) (m : MMap)
    (os ns : Nat) (nl : Layout) (envA : PageSize → Option Nat) (mem : Mem) :
    (reallocCopy self dps m os ns nl envA mem).st =
      (self.alloc dps nl envA).st := by
  unfold reallocCopy
  cases h : (self.alloc dps nl envA).res <;> simp [h]

theorem reallocCopy_success {self : MMapper} {dps : Nat} {m : MMap}
    {os ns : Nat} {nl : Layout} {envA : PageSize → Option Nat} {mem : Mem}
    {np nlen : Nat}
    (h : (reallocCopy self dps m os ns nl envA mem).res = some (np, nlen)) :
    (self.alloc dps nl envA).res = some (np, nlen) ∧
    (reallocCopy self dps m os ns nl envA mem).mem =
      memCopy mem np m.ptr (min os ns) := by
  unfold reallocCopy at h ⊢
  cases ha : (self.alloc dps nl envA).res with
  | none => simp [ha] at h
  | some fat =>
      simp only [ha] at h ⊢
      cases h
      exact ⟨rfl, rfl⟩

theorem tracked_copy {self : MMapper} {dps : Nat} {m : MMap} {os ns : Nat}
    {nl : Layout} {envR : Option Nat} {envA : PageSize → Option Nat} {mem : Mem}
    (h : (reallocTracked self dps m os ns nl envR envA mem).copyPath = true) :
    ∃ self2 : MMapper, self2.ptr_map = self.ptr_map ∧
      self2.threshold_pct = self.threshold_pct ∧
      reallocTracked self dps m os ns nl envR envA mem =
        reallocCopy self2 dps m os ns nl envA mem := by
  unfold reallocTracked at h ⊢
  dsimp only at h ⊢
  split at h <;> rename_i hcls
  · split at h <;> rename_i hok
    · exfalso
      revert h
      cases hins : tableGet self.ptr_map (MMap.remap dps m nl envR).mmap.ptr <;>
        simp [tableInsert, hins]
    · refine ⟨{ self with stats :=
        { self.stats with remaps_failed := self.stats.remaps_failed + 1 } },
        rfl, rfl, ?_⟩
      rw [if_pos hcls, if_neg (by simp [hok])]
  · exact ⟨self, rfl, rfl, by rw [if_neg hcls]⟩

theorem tracked_mem {self : MMapper} {dps : Nat} {m : MMap} {os ns : Nat}
    {nl : Layout} {envR : Option Nat} {envA : PageSize → Option Nat} {mem : Mem}
    {pr : Nat × MMap} (hns : ns = nl.size)
    (h : pr ∈ (reallocTracked self dps m os ns nl envR envA mem).st.ptr_map) :
    pr ∈ self.ptr_map ∨
      (pr.2.layout = nl ∧
        pr.2.alloc_size = MMap.calc_alloc_size dps nl.size pr.2.page_size) := by
  subst hns
  unfold reallocTracked at h
  dsimp only at h
  split at h <;> rename_i hcls
  · split at h <;> rename_i hok
    · rcases remap_ok_shape hok with ⟨hl, ha, hp⟩
      revert h
      cases hins : tableGet self.ptr_map (MMap.remap dps m nl envR).mmap.ptr <;>
        simp only [tableInsert, hins] <;> intro h <;>
        rcases List.mem_cons.mp h with h | h
      · right
        rw [h]
        exact ⟨hl, by rw [ha, hp]⟩
      · exact Or.inl (mem_tableErase h)
      · right
        rw [h]
        exact ⟨hl, by rw [ha, hp]⟩
      · exact Or.inl (mem_tableErase h)
    · rw [show (reallocCopy { self with stats := { self.stats with remaps_failed := self.stats.remaps_failed + 1 } } dps m os nl.size nl envA mem).st = _ from reallocCopy_st _ _ _ _ _ _ _ _] at h
      rcases alloc_mem h with h | ⟨cls, a, hcl, hpr⟩
      · exact Or.inl h
      · right
        rw [hpr]
        exact ⟨rfl, rfl⟩
  · rw [show (reallocCopy self dps m os nl.size nl envA mem).st = _ from reallocCopy_st _ _ _ _ _ _ _ _] at h
    rcases alloc_mem h with h | ⟨cls, a, hcl, hpr⟩
    · exact Or.inl h
    · right
      rw [hpr]
      exact ⟨rfl, rfl⟩

theorem tracked_zero {self : MMapper} {dps : Nat} {m : MMap} {os : Nat}
    {nl : Layout} {envA : PageSize → Option Nat} {mem : Mem}
    (hnl : nl.size = 0) (hA : ∀ ps, envA ps = none) (hm : 0 < m.alloc_size) :
    (reallocTracked self dps m os nl.size nl none envA mem).st.ptr_map =
      self.ptr_map := by
  unfold reallocTracked
  dsimp only
  have hcalc : MMap.calc_alloc_size dps nl.size m.page_size = 0 := by
    rw [hnl]
    exact MMap.calc_alloc_size_zero dps m.page_size
  have hrem : (MMap.remap dps m nl none).ok = false := by
    unfold MMap.remap
    dsimp only
    rw [if_pos (by omega)]
  split <;> rename_i hcls
  · rw [if_neg (by simp [hrem])]
    rw [reallocCopy_st, alloc_of_env_none _ _ _ _ hA]
  · rw [reallocCopy_st, alloc_of_env_none _ _ _ _ hA]

theorem dealloc_ptr_map (st : MMapper) (p : Nat) :
    (st.dealloc p).2.ptr_map = tableErase st.ptr_map p := rfl

end MMapper

theorem memCopy_inside (mem : Mem) (dst src n i : Nat) (h : i < n) :
    memCopy mem dst src n (dst + i) = mem (src + i) := by
  unfold memCopy
  rw [if_pos ⟨Nat.le_add_right _ _, by omega⟩]
  congr 1
  omega

theorem memCopy_outside (mem : Mem) (dst src n a : Nat)
    (h : a < dst ∨ dst + n ≤ a) : memCopy mem dst src n a = mem a := by
  unfold memCopy
  rw [if_neg (by omega)]

namespace MMapper

theorem statsScan_mapped (t : List (Nat × MMap)) (out : HugeAllocatorStats) :
    (t.foldl statsScanStep out).mapped =
      out.mapped + (t.map (fun pr => pr.2.alloc_size)).sum := by
  induction t generalizing out with
  | nil => simp
  | cons hd tl ih =>
      rw [List.foldl_cons, ih]
      unfold statsScanStep
      dsimp only
      split <;> dsimp only <;> simp <;> omega

theorem statsScan_alloc (t : List (Nat × MMap)) (out : HugeAllocatorStats) :
    (t.foldl statsScanStep out).alloc =
      out.alloc + (t.map (fun pr => pr.2.layout.size)).sum := by
  induction t generalizing out with
  | nil => simp
  | cons hd tl ih =>
      rw [List.foldl_cons, ih]
      unfold statsScanStep
      dsimp only
      split <;> dsimp only <;> simp <;> omega

theorem statsSnapshot_mapped (st : MMapper) :
    st.statsSnapshot.mapped = (st.ptr_map.map (fun pr => pr.2.alloc_size)).sum := by
  unfold statsSnapshot
  dsimp only
  split <;> (rename_i hm; dsimp only) <;>
    simpa using (statsScan_mapped st.ptr_map {})

theorem statsSnapshot_alloc (st : MMapper) :
    st.statsSnapshot.alloc = (st.ptr_map.map (fun pr => pr.2.layout.size)).sum := by
  unfold statsSnapshot
  dsimp only
  split <;> (rename_i hm; dsimp only) <;>
    simpa using (statsScan_alloc st.ptr_map {})

theorem tracked_charge (self : MMapper) (dps : Nat) (m : MMap) (os ns : Nat)
    (nl : Layout) (envR : Option Nat) (envA : PageSize → Option Nat)
    (mem : Mem) :
    (reallocTracked self dps m os ns nl envR envA mem).hugeToDefaultCharge = false := by
  unfold reallocTracked
  dsimp only
  split <;> rename_i hcls
  · by_cases hok : (MMap.remap dps m nl envR).ok = true
    · rw [if_pos hok]
      have hps := remap_page_size dps m nl envR
      cases hins : tableGet self.ptr_map (MMap.remap dps m nl envR).mmap.ptr <;>
        simp only [tableInsert, hins] <;>
        by_cases hwd : m.page_size = PageSize.SizeDefault
      · rw [if_pos hwd]; split <;> rfl
      · rw [if_neg hwd, if_neg (by rw [hps]; exact hwd)]
      · rw [if_pos hwd]; split <;> rfl
      · rw [if_neg hwd, if_neg (by rw [hps]; exact hwd)]
    · rw [if_neg hok]
      exact reallocCopy_charge _ _ _ _ _ _ _ _
  · exact reallocCopy_charge _ _ _ _ _ _ _ _

end MMapper

/-! ## The claims -/

/-- C1: the spec demands that `deallocate` on an address with no entry in
the segment table return `AllocFailure` and never succeed silently.  The
code does the opposite: `MMapper::dealloc` discards the `Option` returned
by `map_remove` (`self.map_remove(ptr)?` only propagates a lock error) and
returns `Ok(())` unconditionally — shown here both in general (first
conjunct: every `dealloc` call succeeds) and on the concrete failing input
(a fresh tracker with an empty table, deallocating address 4096 succeeds
and leaves the state unchanged). -/
theorem C1_dealloc_missing_entry_silently_succeeds :
    (∀ (st : MMapper) (p : Nat), (st.dealloc p).1 = some ()) ∧
    tableGet (MMapper.new 50).ptr_map 4096 = none ∧
    ((MMapper.new 50).dealloc 4096).1 = some () ∧
    ((MMapper.new 50).dealloc 4096).2 = MMapper.new 50 :=
  ⟨fun _ _ => rfl, by decide, rfl, by decide⟩

/-- C2: the spec says a missed-huge-allocation event is recorded iff the
segment ended on `Default` pages while the policy wanted `Huge`.  The code
records the event whenever the resulting class is `Default`, with no check
of the policy target: with `threshold_pct = 50` an 8-byte allocation
targets `Default` (first conjunct), succeeds on default pages (second), and
still bumps `missed_allocs`/`missed_bytes` (third and fourth), contradicting
the claim's "records no missed-huge event" for default-target requests. -/
theorem C2_default_target_alloc_records_missed :
    (MMapper.new 50).target_page_size 8 = PageSize.SizeDefault ∧
    ((MMapper.new 50).alloc 4096 ⟨8, 8⟩ (fun _ => some 1000)).res =
      some (1000, 4096) ∧
    ((MMapper.new 50).alloc 4096 ⟨8, 8⟩ (fun _ => some 1000)).st.stats.missed_allocs = 1 ∧
    ((MMapper.new 50).alloc 4096 ⟨8, 8⟩ (fun _ => some 1000)).st.stats.missed_bytes = 8 := by
  decide

/-- C3: `alloc` first tries the policy's target class; if that map fails
and the target was `Huge` it retries exactly once with `Default`.  Under
the freshness assumption that the OS returns addresses not currently in
the table (true of live mappings), the result is `AllocFailure` precisely
when a `Default`-class attempt was made and failed (first conjunct), and
the single `Default` retry after a failed `Huge` attempt installs a
`Default`-class segment (second conjunct).  A map failure is only ever
surfaced as `AllocFailure` (the result type of `alloc`). -/
theorem C3_alloc_fallback_and_failure (st : MMapper) (dps : Nat) (l : Layout)
    (env : PageSize → Option Nat)
    (hfresh : ∀ ps a, env ps = some a → tableGet st.ptr_map a = none) :
    ((st.alloc dps l env).res = none ↔
      ((st.target_page_size l.size = PageSize.SizeDefault ∨
          env (st.target_page_size l.size) = none) ∧
        env PageSize.SizeDefault = none)) ∧
    (st.target_page_size l.size = PageSize.Size2m →
      env PageSize.Size2m = none →
      ∀ a, env PageSize.SizeDefault = some a →
        tableGet (st.alloc dps l env).st.ptr_map a =
          some ⟨a, l, MMap.calc_alloc_size dps l.size PageSize.SizeDefault,
            PageSize.SizeDefault⟩) := by
  constructor
  · rw [MMapper.alloc_eq]
    cases htc : st.target_page_size l.size with
    | SizeDefault =>
        cases henv : env PageSize.SizeDefault with
        | none => simp
        | some a =>
            dsimp only
            rw [MMapper.allocFinish_res, hfresh _ _ henv]
            simp
    | Size2m =>
        cases henv2 : env PageSize.Size2m with
        | some a =>
            dsimp only
            rw [MMapper.allocFinish_res, hfresh _ _ henv2]
            simp
        | none =>
            cases henvD : env PageSize.SizeDefault with
            | none =>
                dsimp only
                rw [if_neg (by decide)]
                simp
            | some a =>
                dsimp only
                rw [if_neg (by decide)]
                try dsimp only
                rw [MMapper.allocFinish_res, hfresh _ _ henvD]
                simp
  · intro htc h2m a hD
    rw [MMapper.alloc_eq, htc, h2m]
    dsimp only
    rw [if_neg (by decide), hD]
    try dsimp only
    rw [MMapper.allocFinish_ptr_map]
    simp [tableGet]

/-- C3 witness: a 3MB request with threshold 50 targets huge pages; with the
huge map failing and the default map succeeding at 7777, the fallback
installs a default-class segment of the page-rounded length. -/
theorem C3_witness :
    tableGet ((MMapper.new 50).alloc 4096 ⟨3 * 1024 * 1024, 8⟩
        (fun ps => match ps with
          | PageSize.Size2m => none
          | PageSize.SizeDefault => some 7777)).st.ptr_map 7777 =
      some ⟨7777, ⟨3 * 1024 * 1024, 8⟩,
        MMap.calc_alloc_size 4096 (3 * 1024 * 1024) PageSize.SizeDefault,
        PageSize.SizeDefault⟩ :=
  (C3_alloc_fallback_and_failure (MMapper.new 50) 4096 ⟨3 * 1024 * 1024, 8⟩ _
    (fun _ _ _ => rfl)).2 (by decide) rfl 7777 rfl

/-- C4: every successful `alloc` returns, with the address, a usable length
equal to `calc_alloc_size` of the request at the chosen class: at least the
requested size, an exact multiple of the class's page bytes, zero exactly
for a zero-byte request, and the least such multiple. -/
theorem C4_alloc_usable_length (st : MMapper) (dps : Nat) (l : Layout)
    (env : PageSize → Option Nat) (p len : Nat) (hdps : 0 < dps)
    (hres : (st.alloc dps l env).res = some (p, len)) :
    ∃ cls : PageSize,
      tableGet (st.alloc dps l env).st.ptr_map p = some ⟨p, l, len, cls⟩ ∧
      len = MMap.calc_alloc_size dps l.size cls ∧
      l.size ≤ len ∧
      len % cls.bytes dps = 0 ∧
      (l.size = 0 → len = 0) ∧
      (0 < l.size → len < l.size + cls.bytes dps) := by
  rcases MMapper.alloc_success hres with ⟨cls, a, henv, hp, hlen, hmap, hcls⟩
  subst hp
  refine ⟨cls, ?_, hlen, ?_, ?_, ?_, ?_⟩
  · rw [hmap]; simp [tableGet]
  · rw [hlen]
    exact MMap.calc_alloc_size_ge dps l.size cls (PageSize.bytes_pos hdps cls)
  · rw [hlen]
    exact MMap.calc_alloc_size_mod dps l.size cls
  · intro h0
    rw [hlen, h0]
    exact MMap.calc_alloc_size_zero dps cls
  · intro hpos
    rw [hlen]
    exact MMap.calc_alloc_size_lt dps l.size cls hpos

/-- C4 witness: an 8-byte request on a fresh tracker (threshold 50) maps
4096 bytes of default pages at address 1000. -/
theorem C4_witness :
    (0 : Nat) < 4096 ∧
    ((MMapper.new 50).alloc 4096 ⟨8, 8⟩ (fun _ => some 1000)).res =
      some (1000, 4096) ∧
    ∃ cls : PageSize,
      tableGet ((MMapper.new 50).alloc 4096 ⟨8, 8⟩
          (fun _ => some 1000)).st.ptr_map 1000 =
        some ⟨1000, ⟨8, 8⟩, 4096, cls⟩ ∧
      4096 = MMap.calc_alloc_size 4096 (8 : Nat) cls ∧
      (8 : Nat) ≤ 4096 ∧
      4096 % cls.bytes 4096 = 0 ∧
      ((8 : Nat) = 0 → (4096 : Nat) = 0) ∧
      ((0 : Nat) < 8 → (4096 : Nat) < 8 + cls.bytes 4096) :=
  ⟨by decide, by decide,
    C4_alloc_usable_length (MMapper.new 50) 4096 ⟨8, 8⟩ (fun _ => some 1000)
      1000 4096 (by decide) (by decide)⟩

/-- C5: `MMap::remap` succeeds with no `mremap` syscall when the new
page-rounded size equals the current mapped size, updating only the stored
layout; and whenever it returns `false` the descriptor (base address, mapped
size, layout, page class) is completely unchanged. -/
theorem C5_remap_trivial_and_failure (dps : Nat) (m : MMap) (nl : Layout)
    (resp : Option Nat) :
    (MMap.calc_alloc_size dps nl.size m.page_size = m.alloc_size →
      (m.remap dps nl resp).ok = true ∧
      (m.remap dps nl resp).mremapCalled = false ∧
      (m.remap dps nl resp).mmap = { m with layout := nl }) ∧
    ((m.remap dps nl resp).ok = false → (m.remap dps nl resp).mmap = m) := by
  constructor
  · intro heq
    unfold MMap.remap
    dsimp only
    rw [if_neg (by omega)]
    exact ⟨rfl, rfl, rfl⟩
  · intro hok
    unfold MMap.remap at hok ⊢
    dsimp only at hok ⊢
    by_cases hne : m.alloc_size ≠ MMap.calc_alloc_size dps nl.size m.page_size
    · rw [if_pos hne] at hok ⊢
      cases resp with
      | some q => simp at hok
      | none => rfl
    · rw [if_neg hne] at hok
      simp at hok

/-- C5 witness: growing the stored layout from 8 to 16 bytes on a 4096-byte
default-page segment rounds to the same mapped size, so the remap succeeds
in place with no syscall and only the layout changes. -/
theorem C5_witness :
    MMap.calc_alloc_size 4096 (16 : Nat) PageSize.SizeDefault = 4096 ∧
    (((⟨1000, ⟨8, 8⟩, 4096, PageSize.SizeDefault⟩ : MMap).remap 4096 ⟨16, 8⟩ none).ok = true ∧
      ((⟨1000, ⟨8, 8⟩, 4096, PageSize.SizeDefault⟩ : MMap).remap 4096 ⟨16, 8⟩ none).mremapCalled = false ∧
      ((⟨1000, ⟨8, 8⟩, 4096, PageSize.SizeDefault⟩ : MMap).remap 4096 ⟨16, 8⟩ none).mmap =
        ⟨1000, ⟨16, 8⟩, 4096, PageSize.SizeDefault⟩) :=
  ⟨by decide,
    (C5_remap_trivial_and_failure 4096 ⟨1000, ⟨8, 8⟩, 4096, PageSize.SizeDefault⟩
      ⟨16, 8⟩ none).1 (by decide)⟩

/-- C6: when `realloc` takes the copy path (class mismatch or failed
in-place remap) and succeeds, the new segment comes from the full `alloc`
path (an OS response `envA cls = some addr` with the page-rounded length),
exactly `min(old_size, new_size)` bytes are copied from the old base to the
new base (addresses outside that window are untouched), and the old
address is no longer tracked. -/
theorem C6_realloc_copy_correct (st : MMapper) (dps p : Nat) (ol nl : Layout)
    (envR : Option Nat) (envA : PageSize → Option Nat) (mem : Mem)
    (m : MMap) (np nlen : Nat)
    (hm : tableGet st.ptr_map p = some m)
    (hres : (st.realloc dps p ol nl envR envA mem).res = some (np, nlen))
    (hcopy : (st.realloc dps p ol nl envR envA mem).copyPath = true)
    (hnp : np ≠ p) :
    (∀ i, i < min ol.size nl.size →
      (st.realloc dps p ol nl envR envA mem).mem (np + i) = mem (m.ptr + i)) ∧
    (∀ a, a < np ∨ np + min ol.size nl.size ≤ a →
      (st.realloc dps p ol nl envR envA mem).mem a = mem a) ∧
    tableGet (st.realloc dps p ol nl envR envA mem).st.ptr_map p = none ∧
    (∃ cls addr, envA cls = some addr ∧ np = addr ∧
      nlen = MMap.calc_alloc_size dps nl.size cls ∧
      tableGet (st.realloc dps p ol nl envR envA mem).st.ptr_map np =
        some ⟨np, nl, nlen, cls⟩) := by
  rw [MMapper.realloc_eq, hm] at hres hcopy ⊢
  dsimp only at hres hcopy ⊢
  obtain ⟨self2, hmap2, _, heq⟩ := MMapper.tracked_copy hcopy
  rw [heq] at hres ⊢
  obtain ⟨hares, hmem⟩ := MMapper.reallocCopy_success hres
  obtain ⟨cls, addr, henv, hpeq, hlen, hshape, _⟩ := MMapper.alloc_success hares
  subst hpeq
  refine ⟨?_, ?_, ?_, cls, np, henv, rfl, hlen, ?_⟩
  · intro i hi
    rw [hmem]
    exact memCopy_inside mem np m.ptr (min ol.size nl.size) i hi
  · intro a ha
    rw [hmem]
    exact memCopy_outside mem np m.ptr (min ol.size nl.size) a ha
  · rw [MMapper.reallocCopy_st, hshape, tableGet]
    rw [if_neg hnp, tableGet_erase_ne _ (fun he => hnp he.symm), hmap2]
    exact tableGet_erase_self st.ptr_map p
  · rw [MMapper.reallocCopy_st, hshape]
    simp [tableGet]

/-- C6 witness: a tracker holding one 8-byte default-page segment at 1000;
growing it to 3MB (target class huge ≠ default) takes the copy path, maps a
fresh 4MB huge segment at 2000 and copies the 8 old bytes there. -/
theorem C6_witness :
    tableGet ((MMapper.new 50).alloc 4096 ⟨8, 8⟩ (fun _ => some 1000)).st.ptr_map 1000 =
      some ⟨1000, ⟨8, 8⟩, 4096, PageSize.SizeDefault⟩ ∧
    (((MMapper.new 50).alloc 4096 ⟨8, 8⟩ (fun _ => some 1000)).st.realloc 4096
        1000 ⟨8, 8⟩ ⟨3 * 1024 * 1024, 8⟩ none (fun _ => some 2000)
        (fun a => a)).res = some (2000, 4 * 1024 * 1024) ∧
    (∀ i, i < min (8 : Nat) (3 * 1024 * 1024) →
      (((MMapper.new 50).alloc 4096 ⟨8, 8⟩ (fun _ => some 1000)).st.realloc 4096
          1000 ⟨8, 8⟩ ⟨3 * 1024 * 1024, 8⟩ none (fun _ => some 2000)
          (fun a => a)).mem (2000 + i) = 1000 + i) :=
  ⟨by decide, by decide,
    ((C6_realloc_copy_correct
      ((MMapper.new 50).alloc 4096 ⟨8, 8⟩ (fun _ => some 1000)).st 4096 1000
      ⟨8, 8⟩ ⟨3 * 1024 * 1024, 8⟩ none (fun _ => some 2000) (fun a => a)
      ⟨1000, ⟨8, 8⟩, 4096, PageSize.SizeDefault⟩ 2000 (4 * 1024 * 1024)
      (by decide) (by decide) (by decide) (by decide)).1 : _)⟩

/-- C7: in every tracker state reachable by alloc/dealloc/realloc sequences
(under the real-OS fact that zero-length map requests fail), every segment
in the table has a mapped size that is a positive multiple of its page
class's byte size and at least its requested layout size. -/
theorem C7_table_invariant (dps : Nat) (st : MMapper) (hdps : 0 < dps)
    (h : MMapper.Reach dps st) :
    ∀ pr ∈ st.ptr_map,
      0 < pr.2.alloc_size ∧
      pr.2.alloc_size % (pr.2.page_size.bytes dps) = 0 ∧
      pr.2.layout.size ≤ pr.2.alloc_size := by
  induction h with
  | init tp =>
      intro pr hpr
      simp [MMapper.new] at hpr
  | alloc_step st l env hst hz ih =>
      intro pr hpr
      rcases MMapper.alloc_mem hpr with hpr | ⟨cls, a, henv, hpr⟩
      · exact ih pr hpr
      · have hls : 0 < l.size := by
          rcases Nat.eq_zero_or_pos l.size with h0 | h0
          · rw [hz h0 cls] at henv; cases henv
          · exact h0
        have hb := PageSize.bytes_pos hdps cls
        rw [hpr]
        exact ⟨MMap.calc_alloc_size_pos dps l.size cls hb hls,
          MMap.calc_alloc_size_mod dps l.size cls,
          MMap.calc_alloc_size_ge dps l.size cls hb⟩
  | dealloc_step st p hst ih =>
      intro pr hpr
      rw [MMapper.dealloc_ptr_map] at hpr
      exact ih pr (mem_tableErase hpr)
  | realloc_step st p ol nl envR envA mem hst hzR hzA ih =>
      intro pr hpr
      rw [MMapper.realloc_eq] at hpr
      cases hget : tableGet st.ptr_map p with
      | none =>
          rw [hget] at hpr
          dsimp only at hpr
          exact ih pr (mem_tableErase hpr)
      | some m =>
          rw [hget] at hpr
          dsimp only at hpr
          rcases Nat.eq_zero_or_pos nl.size with h0 | h0
          · rw [hzR h0] at hpr
            rw [MMapper.tracked_zero h0 (hzA h0)
              (ih (p, m) (tableGet_mem hget)).1] at hpr
            exact ih pr (mem_tableErase hpr)
          · rcases MMapper.tracked_mem rfl hpr with hpr | ⟨hl, ha⟩
            · exact ih pr (mem_tableErase hpr)
            · have hb := PageSize.bytes_pos hdps pr.2.page_size
              exact ⟨ha ▸ MMap.calc_alloc_size_pos dps nl.size pr.2.page_size hb h0,
                ha ▸ MMap.calc_alloc_size_mod dps nl.size pr.2.page_size,
                by rw [hl, ha]; exact MMap.calc_alloc_size_ge dps nl.size pr.2.page_size hb⟩

/-- C7 witness: the state after one successful 8-byte allocation on a fresh
tracker is reachable, and its single table entry (a 4096-byte default-page
segment at 1000) satisfies the invariant. -/
theorem C7_witness :
    0 < (⟨1000, ⟨8, 8⟩, 4096, PageSize.SizeDefault⟩ : MMap).alloc_size ∧
    (⟨1000, ⟨8, 8⟩, 4096, PageSize.SizeDefault⟩ : MMap).alloc_size %
      ((⟨1000, ⟨8, 8⟩, 4096, PageSize.SizeDefault⟩ : MMap).page_size.bytes 4096) = 0 ∧
    (⟨1000, ⟨8, 8⟩, 4096, PageSize.SizeDefault⟩ : MMap).layout.size ≤
      (⟨1000, ⟨8, 8⟩, 4096, PageSize.SizeDefault⟩ : MMap).alloc_size :=
  C7_table_invariant 4096
    ((MMapper.new 50).alloc 4096 ⟨8, 8⟩ (fun _ => some 1000)).st (by decide)
    (MMapper.Reach.alloc_step _ _ _ (MMapper.Reach.init 50)
      (fun h => absurd h (by decide)))
    (1000, ⟨1000, ⟨8, 8⟩, 4096, PageSize.SizeDefault⟩) (by decide)

/-- C8: `stats` reports efficiency 100 when the total mapped byte count is
zero (that branch computes no quotient) and otherwise the truncating
integer quotient `alloc * 100 / mapped`; `mapped` and `alloc` are the table
scan's sums of mapped and requested bytes. -/
theorem C8_stats_efficiency (st : MMapper) :
    (st.statsSnapshot.mapped = 0 → st.statsSnapshot.efficiency = 100) ∧
    (st.statsSnapshot.mapped ≠ 0 →
      st.statsSnapshot.efficiency =
        st.statsSnapshot.alloc * 100 / st.statsSnapshot.mapped) ∧
    st.statsSnapshot.mapped = (st.ptr_map.map (fun pr => pr.2.alloc_size)).sum ∧
    st.statsSnapshot.alloc = (st.ptr_map.map (fun pr => pr.2.layout.size)).sum := by
  refine ⟨?_, ?_, MMapper.statsSnapshot_mapped st, MMapper.statsSnapshot_alloc st⟩
  · intro h0
    unfold MMapper.statsSnapshot at h0 ⊢
    dsimp only at h0 ⊢
    split at h0
    · split
      · rfl
      · rename_i hc hc2
        exact absurd hc hc2
    · rename_i hc
      exact absurd h0 hc
  · intro hne
    unfold MMapper.statsSnapshot at hne ⊢
    dsimp only at hne ⊢
    split at hne
    · rename_i hc
      exact absurd hc hne
    · split
      · rename_i hc hc2
        exact absurd hc2 hc
      · rfl

/-- C8 witness: a fresh tracker has nothing mapped and reports efficiency
100 without dividing. -/
theorem C8_witness : (MMapper.new 50).statsSnapshot.efficiency = 100 :=
  (C8_stats_efficiency (MMapper.new 50)).1 (by decide)

/-- C9: `target_page_size` is a pure function of the requested size and the
configured threshold: it picks `Size2m` exactly when
`size * 100 / (2*1024*1024) ≥ threshold_pct` and `SizeDefault` otherwise,
with no special case for size 0 (with threshold 0 a zero-size request
targets huge pages). -/
theorem C9_target_page_size_formula (st : MMapper) (size : Nat) :
    (st.target_page_size size = PageSize.Size2m ↔
      st.threshold_pct ≤ size * 100 / (2 * 1024 * 1024)) ∧
    (st.target_page_size size = PageSize.SizeDefault ↔
      ¬ st.threshold_pct ≤ size * 100 / (2 * 1024 * 1024)) ∧
    (MMapper.new 0).target_page_size 0 = PageSize.Size2m := by
  refine ⟨?_, ?_, by decide⟩
  · unfold MMapper.target_page_size
    split <;> simp_all
  · unfold MMapper.target_page_size
    split <;> simp_all

/-- C9 witness: with threshold 50, a 1MB request is exactly at the
threshold and targets huge pages. -/
theorem C9_witness :
    (MMapper.new 50).target_page_size (1024 * 1024) = PageSize.Size2m :=
  (C9_target_page_size_formula (MMapper.new 50) (1024 * 1024)).1.mpr (by decide)

/-- C10: a successful in-place remap can never change a segment's page
class (`MMap::remap` writes `ptr`, `alloc_size` and `layout` only), so the
branch of `realloc` that charges `new_size` missed-huge bytes for a
segment that was non-default before the remap and default after it can
never fire: the ghost flag marking that branch is false on every
execution. -/
theorem C10_huge_to_default_branch_unreachable :
    (∀ (dps : Nat) (m : MMap) (nl : Layout) (resp : Option Nat),
      (m.remap dps nl resp).mmap.page_size = m.page_size) ∧
    (∀ (st : MMapper) (dps p : Nat) (ol nl : Layout) (envR : Option Nat)
        (envA : PageSize → Option Nat) (mem : Mem),
      (st.realloc dps p ol nl envR envA mem).hugeToDefaultCharge = false) := by
  refine ⟨MMapper.remap_page_size, ?_⟩
  intro st dps p ol nl envR envA mem
  rw [MMapper.realloc_eq]
  cases hget : tableGet st.ptr_map p with
  | none => rfl
  | some m => exact MMapper.tracked_charge _ dps m ol.size nl.size nl envR envA mem

end HugeAlloc
